import Mathlib

/-
Verification of the traversal core of degrees-of-separation-from-gabe-newell.

The program explores the Steam friend graph outward from an initial account,
looking for members of a target set, bounded by a maximum depth, with a
persistent friend-list cache, batched concurrent recursion, and a registry
of "finds" keyed by target id.

This file shallowly embeds the relevant parts of the Python source
(src/degrees-of-separation-from-gabe-newell.py).  The recursive coroutine
`find` is embedded as a fueled, structurally recursive interpreter `exec`
over explicit jobs; a batch of child calls is executed sequentially in list
order, which realises the awaited-to-completion batch semantics of
`asyncio.wait(..., return_when=ALL_COMPLETED)` at batch granularity.  The
fuel argument is only a termination device: every theorem either holds for
all fuel values or is stated for an invocation with at least one unit of
fuel, which corresponds to one unfolding of the Python function body.
Network traffic, rate-gate sleeps and batch boundaries are recorded in an
event trace so that temporal claims become statements about the trace.
The shuffle_friends flag defaults to False in the source and is modelled
in its default (off) state; it affects only the order of recorded chains.
-/

namespace Gaben

/-- Steam ids are opaque strings; equality is string equality. -/
abbrev SteamId := String

/-- One entry of a friend-list response: relationship kind and the friend's id. -/
structure Friend where
  relationship : String
  steamid : SteamId
deriving DecidableEq, Repr

abbrev FriendList := List Friend

/-- The Find record (dataclass Find in the source): target id, all recorded
chains, best depth, and a backward link to the record this one replaced. -/
inductive Find where
  | mk (valve_dev_steam_id : SteamId) (steam_id_tallies : List (List SteamId))
       (depth : Nat) (previous_depth_find : Option Find)

def Find.valve_dev_steam_id : Find → SteamId
  | Find.mk v _ _ _ => v

def Find.steam_id_tallies : Find → List (List SteamId)
  | Find.mk _ t _ _ => t

def Find.depth : Find → Nat
  | Find.mk _ _ d _ => d

def Find.previous_depth_find : Find → Option Find
  | Find.mk _ _ _ p => p

/-- Resolved profile data (dataclass SteamProfile in the source). -/
structure SteamProfile where
  id : SteamId
  name : String
  url : String
deriving DecidableEq, Repr

/-- Abstract raw GetFriendList response body: either it parses and the
friendslist key is present (some friends) or absent (none), or the body is
malformed and parsing raises. -/
inductive RawResp where
  | good (friendslist : Option FriendList)
  | bad
deriving DecidableEq, Repr

/-- Outcome of the GET itself: the request raises, or returns a body. -/
inductive NetResult where
  | fail
  | raw (response : RawResp)
deriving DecidableEq, Repr

/-- Parsing a response body (response.json() and the friendslist lookup). -/
def parseResp : RawResp → Except Unit (Option FriendList)
  | RawResp.good fl => Except.ok fl
  | RawResp.bad => Except.error ()

/-- The response attached to a FindError: the raw network response or the
literal from-cache marker. -/
inductive RespMarker where
  | fromCache
  | netResponse (response : RawResp)
deriving DecidableEq, Repr

/-- FindError (class FindError in the source): the offending id and the raw
response context (None when the GET itself raised). -/
structure FindError where
  steam_id : SteamId
  response : Option RespMarker
deriving DecidableEq, Repr

/-- The cached_only CLI mode. -/
inductive CachedOnly where
  | all
  | none'
  | friends_only
  | profiles_only
deriving DecidableEq, Repr

/-- The outcome of the interactive input("Hit enter to continue... ")
prompt in the Gabe Newell special case (source lines 204-205): the user
answers and the call returns, or stdin is closed and input raises
EOFError.  An environment parameter of the interpreter, like the
network. -/
inductive PauseResult where
  | ok
  | eof
deriving DecidableEq, Repr

/-- Observable events of a run: the rate-gate sleep, a friend-list network
request, a profile-batch network request, batch boundaries of the chunked
child recursion, the interactive gaben prompt, and a target discovery (the
logged find). -/
inductive Event where
  | sleep (delay : Nat)
  | netFriends (steam_id : SteamId)
  | netProfiles (steam_ids : List SteamId)
  | batchStart (width : Nat)
  | batchEnd
  | pause
  | found (steam_id : SteamId) (steam_ids_tally : List SteamId) (depth : Nat)
deriving DecidableEq, Repr

/-- The configuration the traversal core receives from the CLI, together
with the gaben_steam_id constant that the source imports at line 22 from
the all_valve_employees module (not under src/); its concrete value is
opaque, so it is carried here as an abstract parameter of the model. -/
structure Config where
  max_depth : Nat
  simultaneous_requests : Nat
  request_delay : Nat
  targets : List SteamId
  cached_only : CachedOnly
  gaben_steam_id : SteamId

/-- Mutable program state: the finds dict, the friend_lists cache table,
and the observable event trace. -/
structure St where
  finds : List (SteamId × Find)
  friend_cache : List (SteamId × Option FriendList)
  trace : List Event

/-- Lookup in the finds dict (finds.get(steam_id, None)). -/
def lookupFind : List (SteamId × Find) → SteamId → Option Find
  | [], _ => none
  | p :: rest, k => if p.1 = k then some p.2 else lookupFind rest k

/-- Dict assignment finds[steam_id] = f: replace in place, else append. -/
def setFind : List (SteamId × Find) → SteamId → Find → List (SteamId × Find)
  | [], k, f => [(k, f)]
  | p :: rest, k, f => if p.1 = k then (k, f) :: rest else p :: setFind rest k f

/-- The Find Registry update performed in the target-check block
(source lines 199-228): no prior record creates a new Find; a prior record
with strictly larger depth is replaced by a new Find that keeps a backward
link; otherwise the chain is appended to the prior record. -/
def updateFinds (finds : List (SteamId × Find)) (steam_id : SteamId)
    (steam_ids_tally : List SteamId) (depth : Nat) : List (SteamId × Find) :=
  match lookupFind finds steam_id with
  | none =>
      setFind finds steam_id (Find.mk steam_id [steam_ids_tally] depth none)
  | some previous_find =>
      if depth < previous_find.depth then
        setFind finds steam_id (Find.mk steam_id [steam_ids_tally] depth (some previous_find))
      else
        setFind finds steam_id
          (Find.mk previous_find.valve_dev_steam_id
            (previous_find.steam_id_tallies ++ [steam_ids_tally])
            previous_find.depth previous_find.previous_depth_find)

/-- SELECT response FROM friend_lists WHERE steam_id = ? (first row). -/
def cacheGet : List (SteamId × Option FriendList) → SteamId → Option (Option FriendList)
  | [], _ => none
  | p :: rest, k => if p.1 = k then some p.2 else cacheGet rest k

/-- INSERT INTO friend_lists (steam_id, response) VALUES (?, ?). -/
def cachePut (cache : List (SteamId × Option FriendList)) (steam_id : SteamId)
    (response : Option FriendList) : List (SteamId × Option FriendList) :=
  cache ++ [(steam_id, response)]

/-- The neighbor filter (source lines 282-290): keep friends whose
relationship is "friend", whose id differs from the current node, and --
cycle guard -- when the accumulated chain has length at least 3, only if
the current node's id does not already occur in the chain.  A None friend
list (private profile) yields no neighbors. -/
def filterFriends (raw_friend_list : Option FriendList) (steam_id : SteamId)
    (steam_ids_tally : List SteamId) : List Friend :=
  match raw_friend_list with
  | none => []
  | some friend_list =>
      friend_list.filter (fun friend =>
        decide (friend.relationship = "friend" ∧ friend.steamid ≠ steam_id ∧
          (steam_ids_tally.length < 3 ∨ steam_id ∉ steam_ids_tally)))

/-- The registry write of the target-check block (source lines 207-228):
update the finds dict and log the discovery. -/
def recordFind (steam_id : SteamId) (steam_ids_tally : List SteamId) (depth : Nat)
    (st : St) : St :=
  { st with
    finds := updateFinds st.finds steam_id steam_ids_tally depth,
    trace := st.trace ++ [Event.found steam_id steam_ids_tally depth] }

/-- The target-check block at the top of find (source lines 199-228).  For
a target node the registry is updated — but when the node is the gaben id
the source first reads meta["previous_was_from_cache"] (line 204), which
raises KeyError when the invoking metadata lacks the key (the root call,
whose meta defaults to the empty dict), and when the flag is False it
awaits input() (line 205), which raises EOFError when stdin is closed;
either exception aborts the invocation BEFORE the registry write and is
wrapped by the handler at line 326 into a FindError carrying the node id
and a None response. -/
def targetCheck (cfg : Config) (pause : PauseResult) (steam_id : SteamId)
    (steam_ids_tally : List SteamId) (depth : Nat)
    (previous_was_from_cache : Option Bool) (st : St) : St × Option FindError :=
  if steam_id ∈ cfg.targets then
    if steam_id = cfg.gaben_steam_id then
      match previous_was_from_cache with
      | none => (st, some { steam_id := steam_id, response := none })
      | some from_cache =>
          if from_cache then (recordFind steam_id steam_ids_tally depth st, none)
          else
            match pause with
            | PauseResult.ok =>
                (recordFind steam_id steam_ids_tally depth
                  { st with trace := st.trace ++ [Event.pause] }, none)
            | PauseResult.eof =>
                ({ st with trace := st.trace ++ [Event.pause] },
                 some { steam_id := steam_id, response := none })
    else (recordFind steam_id steam_ids_tally depth st, none)
  else (st, none)

/-- The rate gate before a network acquisition: await request_delay, then
issue the friend-list request (asyncio.sleep followed by client.get). -/
def rateGate (cfg : Config) (steam_id : SteamId) (st : St) : St :=
  { st with trace := st.trace ++ [Event.sleep cfg.request_delay, Event.netFriends steam_id] }

/-- Persisting a parsed friend-list response (the INSERT at lines 277-280). -/
def storeFriends (steam_id : SteamId) (raw_friend_list : Option FriendList) (st : St) : St :=
  { st with friend_cache := cachePut st.friend_cache steam_id raw_friend_list }

/-- The batched helper from the source (itertools.islice fallback):
repeatedly take chunk_size elements until the iterator is exhausted; a
chunk size of zero immediately yields nothing.  The first argument of the
worker is fuel bounding the number of chunks (the list length suffices). -/
def batchedGo {α : Type} (chunk_size : Nat) : Nat → List α → List (List α)
  | _, [] => []
  | 0, _ :: _ => []
  | fuel + 1, x :: xs => (x :: xs).take chunk_size :: batchedGo chunk_size fuel ((x :: xs).drop chunk_size)

def batched {α : Type} (l : List α) (chunk_size : Nat) : List (List α) :=
  if chunk_size = 0 then [] else batchedGo chunk_size l.length l

/-- A pending unit of work of the traversal: a recursive find call
(carrying the previous_was_from_cache entry of its meta argument — absent
on the root call), the expansion tail of a call (filter + spawn) shared by
the cache-hit and network paths, one batch of child calls, and the
sequence of batches; the expansion jobs carry the from-cache flag the
parent passes to every child it spawns. -/
inductive Job where
  | go (steam_id : SteamId) (steam_ids_tally : List SteamId) (depth : Nat)
      (previous_was_from_cache : Option Bool)
  | expand (steam_id : SteamId) (raw_friend_list : Option FriendList)
      (steam_ids_tally : List SteamId) (depth : Nat) (from_cache : Bool)
  | chunk (ids : List SteamId) (steam_ids_tally : List SteamId) (depth : Nat)
      (from_cache : Bool)
  | chunks (cs : List (List SteamId)) (steam_ids_tally : List SteamId) (depth : Nat)
      (from_cache : Bool)

/-- The traversal interpreter, mirroring async def find (source lines
187-327).  A Job.go step performs the target check, the depth cutoff, the
cache consultation, the cached_only short-circuit, and the rate-gated
network acquisition; Job.expand filters neighbors and spawns one child per
eligible friend, chunked by simultaneous_requests; Job.chunks runs the
batches in order, aborting after a batch that observed an error
(sys.exit(1)); Job.chunk runs every call of one batch to completion and
reports the first error.  The error component models the FindError raised
by a failing call; its propagation across batch boundaries models the
non-zero process exit. -/
def exec (cfg : Config) (fetch : SteamId → NetResult) (pause : PauseResult) :
    Nat → Job → St → St × Option FindError
  | 0, _, st => (st, none)
  | fuel + 1, Job.go steam_id steam_ids_tally depth previous_was_from_cache, st =>
      match targetCheck cfg pause steam_id steam_ids_tally depth previous_was_from_cache st with
      | (st1, some e) => (st1, some e)
      | (st1, none) =>
          if cfg.max_depth ≤ depth then (st1, none)
          else
            match cacheGet st1.friend_cache steam_id with
            | some raw_friend_list =>
                exec cfg fetch pause fuel
                  (Job.expand steam_id raw_friend_list steam_ids_tally depth true) st1
            | none =>
                if cfg.cached_only = CachedOnly.all ∨
                    cfg.cached_only = CachedOnly.friends_only then
                  (st1, none)
                else
                  match fetch steam_id with
                  | NetResult.fail =>
                      (rateGate cfg steam_id st1,
                       some { steam_id := steam_id, response := none })
                  | NetResult.raw r =>
                      match parseResp r with
                      | Except.error _ =>
                          (rateGate cfg steam_id st1,
                           some { steam_id := steam_id,
                                  response := some (RespMarker.netResponse r) })
                      | Except.ok raw_friend_list =>
                          exec cfg fetch pause fuel
                            (Job.expand steam_id raw_friend_list steam_ids_tally depth false)
                            (storeFriends steam_id raw_friend_list
                              (rateGate cfg steam_id st1))
  | fuel + 1, Job.expand steam_id raw_friend_list steam_ids_tally depth from_cache, st =>
      exec cfg fetch pause fuel
        (Job.chunks
          (batched ((filterFriends raw_friend_list steam_id steam_ids_tally).map Friend.steamid)
            cfg.simultaneous_requests)
          (steam_ids_tally ++ [steam_id]) (depth + 1) from_cache) st
  | _ + 1, Job.chunk [] _ _ _, st => (st, none)
  | fuel + 1, Job.chunk (id :: rest) steam_ids_tally depth from_cache, st =>
      match exec cfg fetch pause fuel (Job.go id steam_ids_tally depth (some from_cache)) st with
      | (st1, e1) =>
          match exec cfg fetch pause fuel (Job.chunk rest steam_ids_tally depth from_cache) st1 with
          | (st2, e2) =>
              (st2, match e1 with
                    | some e => some e
                    | none => e2)
  | _ + 1, Job.chunks [] _ _ _, st => (st, none)
  | fuel + 1, Job.chunks (c :: rest) steam_ids_tally depth from_cache, st =>
      match exec cfg fetch pause fuel (Job.chunk c steam_ids_tally depth from_cache)
          { st with trace := st.trace ++ [Event.batchStart c.length] } with
      | (st1, some e) => ({ st1 with trace := st1.trace ++ [Event.batchEnd] }, some e)
      | (st1, none) =>
          exec cfg fetch pause fuel (Job.chunks rest steam_ids_tally depth from_cache)
            { st1 with trace := st1.trace ++ [Event.batchEnd] }

/-- The top-level invocation: find(client, initial_steam_id) with default
chain [], depth 0, and meta {} — so the previous_was_from_cache key is
absent — over a possibly pre-populated friend-list cache. -/
def runFind (cfg : Config) (fetch : SteamId → NetResult) (pause : PauseResult) (fuel : Nat)
    (initial_steam_id : SteamId) (cache0 : List (SteamId × Option FriendList)) :
    St × Option FindError :=
  exec cfg fetch pause fuel (Job.go initial_steam_id [] 0 none)
    { finds := [], friend_cache := cache0, trace := [] }

/-- SELECT response FROM profiles WHERE steam_id = ? (first row). -/
def profileCacheGet : List (SteamId × SteamProfile) → SteamId → Option SteamProfile
  | [], _ => none
  | p :: rest, k => if p.1 = k then some p.2 else profileCacheGet rest k

/-- The post-traversal profile resolution of main (source lines 358-411):
cache hits are mapped immediately; then, unless cached_only is all or
profiles_only, the remaining ids are resolved in network batches of up to
100, each preceded by the rate-gate sleep, and written back to the cache.
Returns the mapped profiles, the updated profile cache, and the emitted
events. -/
def resolveProfiles (cfg : Config) (profNet : List SteamId → List SteamProfile)
    (profile_cache : List (SteamId × SteamProfile)) (unmapped_steam_ids : List SteamId) :
    List (SteamId × SteamProfile) × List (SteamId × SteamProfile) × List Event :=
  let mapped0 := unmapped_steam_ids.filterMap
    (fun steam_id => (profileCacheGet profile_cache steam_id).map (fun p => (steam_id, p)))
  let remaining := unmapped_steam_ids.filter
    (fun steam_id => (profileCacheGet profile_cache steam_id).isNone)
  if cfg.cached_only = CachedOnly.all ∨ cfg.cached_only = CachedOnly.profiles_only then
    (mapped0, profile_cache, [])
  else
    let fetched := (batched remaining 100).map
      (fun chunk => (profNet chunk).map (fun p => (p.id, p)))
    (mapped0 ++ fetched.flatten, profile_cache ++ fetched.flatten,
      ((batched remaining 100).map
        (fun chunk => [Event.sleep cfg.request_delay, Event.netProfiles chunk])).flatten)

/-- A sequence of registry updates applied in order. -/
def applyUpdates (finds : List (SteamId × Find))
    (upds : List (SteamId × List SteamId × Nat)) : List (SteamId × Find) :=
  upds.foldl (fun fs u => updateFinds fs u.1 u.2.1 u.2.2) finds

@[simp] theorem Find.valve_dev_steam_id_mk (v : SteamId) (t : List (List SteamId))
    (d : Nat) (p : Option Find) : Find.valve_dev_steam_id (Find.mk v t d p) = v := rfl

@[simp] theorem Find.steam_id_tallies_mk (v : SteamId) (t : List (List SteamId))
    (d : Nat) (p : Option Find) : Find.steam_id_tallies (Find.mk v t d p) = t := rfl

@[simp] theorem Find.depth_mk (v : SteamId) (t : List (List SteamId))
    (d : Nat) (p : Option Find) : Find.depth (Find.mk v t d p) = d := rfl

@[simp] theorem Find.previous_depth_find_mk (v : SteamId) (t : List (List SteamId))
    (d : Nat) (p : Option Find) : Find.previous_depth_find (Find.mk v t d p) = p := rfl

theorem lookupFind_setFind_self (finds : List (SteamId × Find)) (k : SteamId) (f : Find) :
    lookupFind (setFind finds k f) k = some f := by
  induction finds with
  | nil => simp [setFind, lookupFind]
  | cons p rest ih =>
    by_cases hp : p.1 = k
    · simp [setFind, hp, lookupFind]
    · simp [setFind, hp, lookupFind, ih]

theorem lookupFind_setFind_ne (finds : List (SteamId × Find)) (k k' : SteamId) (f : Find)
    (h : k' ≠ k) : lookupFind (setFind finds k f) k' = lookupFind finds k' := by
  have hkk : k ≠ k' := Ne.symm h
  induction finds with
  | nil => simp [setFind, lookupFind, hkk]
  | cons p rest ih =>
    by_cases hp : p.1 = k
    · simp [setFind, hp, lookupFind, hkk]
    · simp [setFind, hp, lookupFind, ih]

theorem cacheGet_cachePut_of_mem (cache : List (SteamId × Option FriendList))
    (k k' : SteamId) (v : Option FriendList) :
    cacheGet cache k ≠ none → cacheGet (cachePut cache k' v) k = cacheGet cache k := by
  induction cache with
  | nil => intro h; exact absurd rfl h
  | cons p rest ih =>
    intro h
    by_cases hp : p.1 = k
    · simp [cachePut, cacheGet, hp]
    · simp only [cacheGet, if_neg hp] at h
      simp [cachePut, cacheGet, hp] at ih ⊢
      exact ih h

theorem cacheGet_cachePut_self (cache : List (SteamId × Option FriendList))
    (k : SteamId) (v : Option FriendList) (h : cacheGet cache k = none) :
    cacheGet (cachePut cache k v) k = some v := by
  induction cache with
  | nil => simp [cachePut, cacheGet]
  | cons p rest ih =>
    by_cases hp : p.1 = k
    · simp [cacheGet, hp] at h
    · simp only [cacheGet, if_neg hp] at h
      simp [cachePut, cacheGet, hp] at ih ⊢
      exact ih h

/-- The ways a registry record may change over a run: it is replaced by a
strictly better (smaller) depth record, or it keeps its depth, identity and
backward link while chains are appended. -/
def FindEvolves (f f' : Find) : Prop :=
  f'.depth < f.depth ∨
    (f'.depth = f.depth ∧ f'.valve_dev_steam_id = f.valve_dev_steam_id ∧
      f'.previous_depth_find = f.previous_depth_find ∧
      ∃ rest, f'.steam_id_tallies = f.steam_id_tallies ++ rest)

theorem findEvolves_refl (f : Find) : FindEvolves f f :=
  Or.inr ⟨rfl, rfl, rfl, [], (List.append_nil _).symm⟩

theorem findEvolves_trans {f f' f'' : Find} (h1 : FindEvolves f f')
    (h2 : FindEvolves f' f'') : FindEvolves f f'' := by
  rcases h1 with h1 | ⟨hd1, hv1, hp1, r1, ht1⟩
  · rcases h2 with h2 | ⟨hd2, _, _, _, _⟩
    · exact Or.inl (lt_trans h2 h1)
    · exact Or.inl (hd2 ▸ h1)
  · rcases h2 with h2 | ⟨hd2, hv2, hp2, r2, ht2⟩
    · exact Or.inl (hd1 ▸ h2)
    · exact Or.inr ⟨hd1 ▸ hd2, hv1 ▸ hv2, hp1 ▸ hp2, r1 ++ r2,
        by rw [ht2, ht1, List.append_assoc]⟩

theorem updateFinds_evolves (finds : List (SteamId × Find)) (steam_id : SteamId)
    (tally : List SteamId) (depth : Nat) :
    ∀ k f, lookupFind finds k = some f →
      ∃ f', lookupFind (updateFinds finds steam_id tally depth) k = some f' ∧
        FindEvolves f f' := by
  intro k f hf
  by_cases hk : k = steam_id
  · subst hk
    simp only [updateFinds, hf]
    by_cases hd : depth < f.depth
    · rw [if_pos hd]
      exact ⟨_, lookupFind_setFind_self _ _ _, Or.inl (by simp [hd])⟩
    · rw [if_neg hd]
      exact ⟨_, lookupFind_setFind_self _ _ _,
        Or.inr ⟨by simp, by simp, by simp, [tally], by simp⟩⟩
  · cases hlk : lookupFind finds steam_id with
    | none =>
      simp only [updateFinds, hlk]
      exact ⟨f, by rw [lookupFind_setFind_ne _ _ _ _ hk]; exact hf, findEvolves_refl f⟩
    | some prev =>
      simp only [updateFinds, hlk]
      split
      · exact ⟨f, by rw [lookupFind_setFind_ne _ _ _ _ hk]; exact hf, findEvolves_refl f⟩
      · exact ⟨f, by rw [lookupFind_setFind_ne _ _ _ _ hk]; exact hf, findEvolves_refl f⟩

/-- The run invariant relating a state to any state the interpreter can
produce from it: the trace only grows; cached friend-list keys keep their
value and are never the subject of a new network request; every discovery
logged along the way records a chain whose length equals its depth (under
the chain/depth side condition of the invoking job); and registry records
only evolve by better-depth replacement or chain appending. -/
def ExecInv (chainOk : Prop) (st st' : St) : Prop :=
  ∃ Δ, st'.trace = st.trace ++ Δ ∧
    (∀ k, cacheGet st.friend_cache k ≠ none →
      (Event.netFriends k ∉ Δ ∧ cacheGet st'.friend_cache k = cacheGet st.friend_cache k)) ∧
    (chainOk → ∀ i t d, Event.found i t d ∈ Δ → t.length = d) ∧
    (∀ k f, lookupFind st.finds k = some f →
      ∃ f', lookupFind st'.finds k = some f' ∧ FindEvolves f f')

theorem execInv_refl (P : Prop) (st : St) : ExecInv P st st :=
  ⟨[], (List.append_nil _).symm,
    fun _ _ => ⟨List.not_mem_nil _, rfl⟩,
    fun _ _ _ _ hm => absurd hm (List.not_mem_nil _),
    fun _ f hf => ⟨f, hf, findEvolves_refl f⟩⟩

theorem execInv_trans {P Q : Prop} {st st1 st2 : St}
    (h1 : ExecInv P st st1) (h2 : ExecInv Q st1 st2) (hPQ : P → Q) :
    ExecInv P st st2 := by
  obtain ⟨d1, ht1, hc1, hf1, hd1⟩ := h1
  obtain ⟨d2, ht2, hc2, hf2, hd2⟩ := h2
  refine ⟨d1 ++ d2, ?_, ?_, ?_, ?_⟩
  · rw [ht2, ht1, List.append_assoc]
  · intro k hk
    obtain ⟨hn1, he1⟩ := hc1 k hk
    have hk1 : cacheGet st1.friend_cache k ≠ none := by rw [he1]; exact hk
    obtain ⟨hn2, he2⟩ := hc2 k hk1
    exact ⟨fun hm => (List.mem_append.mp hm).elim (fun h => hn1 h) (fun h => hn2 h),
      by rw [he2, he1]⟩
  · intro hP i t d hm
    rcases List.mem_append.mp hm with h | h
    · exact hf1 hP i t d h
    · exact hf2 (hPQ hP) i t d h
  · intro k f hf
    obtain ⟨f1, hl1, he1⟩ := hd1 k f hf
    obtain ⟨f2, hl2, he2⟩ := hd2 k f1 hl1
    exact ⟨f2, hl2, findEvolves_trans he1 he2⟩

theorem execInv_weaken {P Q : Prop} {st st' : St} (h : ExecInv Q st st')
    (hPQ : P → Q) : ExecInv P st st' := by
  obtain ⟨d, ht, hc, hf, hd⟩ := h
  exact ⟨d, ht, hc, fun hP => hf (hPQ hP), hd⟩

theorem execInv_extendTrace (P : Prop) (st : St) (evs : List Event)
    (hnf : ∀ k, cacheGet st.friend_cache k ≠ none → Event.netFriends k ∉ evs)
    (hfd : P → ∀ i t d, Event.found i t d ∈ evs → t.length = d) :
    ExecInv P st { st with trace := st.trace ++ evs } :=
  ⟨evs, rfl, fun k hk => ⟨hnf k hk, rfl⟩, hfd,
    fun _ f hf => ⟨f, hf, findEvolves_refl f⟩⟩

theorem execInv_storeFriendsStep (P : Prop) (st : St) (k : SteamId)
    (v : Option FriendList) : ExecInv P st (storeFriends k v st) :=
  ⟨[], (List.append_nil _).symm,
    fun _ hk => ⟨List.not_mem_nil _, cacheGet_cachePut_of_mem _ _ _ _ hk⟩,
    fun _ _ _ _ hm => absurd hm (List.not_mem_nil _),
    fun _ f hf => ⟨f, hf, findEvolves_refl f⟩⟩

theorem execInv_rateGateStep (P : Prop) (cfg : Config) (steam_id : SteamId) (st : St)
    (hmiss : cacheGet st.friend_cache steam_id = none) :
    ExecInv P st (rateGate cfg steam_id st) := by
  refine execInv_extendTrace P st _ ?_ ?_
  · intro k hk hm
    simp only [List.mem_cons, List.not_mem_nil, or_false] at hm
    rcases hm with hm | hm
    · exact Event.noConfusion hm
    · cases Event.netFriends.inj hm
      exact hk hmiss
  · intro _ i t d hm
    simp only [List.mem_cons, List.not_mem_nil, or_false] at hm
    rcases hm with hm | hm
    · exact Event.noConfusion hm
    · exact Event.noConfusion hm

theorem recordFind_inv (steam_id : SteamId) (tally : List SteamId) (depth : Nat)
    (st : St) (P : Prop) (hP : P → tally.length = depth) :
    ExecInv P st (recordFind steam_id tally depth st) := by
  refine ⟨[Event.found steam_id tally depth], rfl, ?_, ?_, ?_⟩
  · intro k _hk
    refine ⟨?_, rfl⟩
    intro hm
    simp only [List.mem_cons, List.not_mem_nil, or_false] at hm
    exact Event.noConfusion hm
  · intro hP' i t d hm
    simp only [List.mem_cons, List.not_mem_nil, or_false] at hm
    obtain ⟨_, h2, h3⟩ := Event.found.inj hm
    rw [h2, h3]
    exact hP hP'
  · exact updateFinds_evolves st.finds steam_id tally depth

theorem execInv_pauseStep (P : Prop) (st : St) :
    ExecInv P st { st with trace := st.trace ++ [Event.pause] } := by
  refine execInv_extendTrace P st _ ?_ ?_
  · intro k _hk hm
    simp only [List.mem_cons, List.not_mem_nil, or_false] at hm
    exact Event.noConfusion hm
  · intro _ i t d hm
    simp only [List.mem_cons, List.not_mem_nil, or_false] at hm
    exact Event.noConfusion hm

theorem targetCheck_inv (cfg : Config) (pause : PauseResult) (steam_id : SteamId)
    (tally : List SteamId) (depth : Nat) (pwfc : Option Bool) (st : St) (P : Prop)
    (hP : P → tally.length = depth) :
    ExecInv P st (targetCheck cfg pause steam_id tally depth pwfc st).1 := by
  unfold targetCheck
  split
  · split
    · match pwfc with
      | none => exact execInv_refl P st
      | some from_cache =>
        dsimp only
        split
        · exact recordFind_inv steam_id tally depth st P hP
        · match pause with
          | PauseResult.ok =>
            exact execInv_trans (execInv_pauseStep P st)
              (recordFind_inv steam_id tally depth _ P hP) (fun h => h)
          | PauseResult.eof => exact execInv_pauseStep P st
    · exact recordFind_inv steam_id tally depth st P hP
  · exact execInv_refl P st

/-- For a node other than the gaben id, the target-check block always
completes: the registry write happens for targets and the invocation
continues normally. -/
theorem targetCheck_not_gaben (cfg : Config) (pause : PauseResult) (steam_id : SteamId)
    (tally : List SteamId) (depth : Nat) (pwfc : Option Bool) (st : St)
    (h : steam_id ≠ cfg.gaben_steam_id) :
    targetCheck cfg pause steam_id tally depth pwfc st =
      (if steam_id ∈ cfg.targets then recordFind steam_id tally depth st else st, none) := by
  unfold targetCheck
  by_cases hmem : steam_id ∈ cfg.targets
  · rw [if_pos hmem, if_neg h, if_pos hmem]
  · rw [if_neg hmem, if_neg hmem]

/-- The root invocation of the gaben target raises before the registry
write: meta is the empty dict, so line 204 raises KeyError, wrapped into a
FindError with the node id and no response. -/
theorem targetCheck_gaben_root (cfg : Config) (pause : PauseResult) (steam_id : SteamId)
    (tally : List SteamId) (depth : Nat) (st : St)
    (hmem : steam_id ∈ cfg.targets) (hg : steam_id = cfg.gaben_steam_id) :
    targetCheck cfg pause steam_id tally depth none st =
      (st, some { steam_id := steam_id, response := none }) := by
  unfold targetCheck
  rw [if_pos hmem, if_pos hg]

/-- The side condition threaded through the traversal: the accumulated
chain has length equal to the current depth. -/
def Job.chainOk : Job → Prop
  | Job.go _ tally depth _ => tally.length = depth
  | Job.expand _ _ tally depth _ => tally.length = depth
  | Job.chunk _ tally depth _ => tally.length = depth
  | Job.chunks _ tally depth _ => tally.length = depth

theorem exec_inv (cfg : Config) (fetch : SteamId → NetResult) (pause : PauseResult) :
    ∀ (fuel : Nat) (job : Job) (st : St),
      ExecInv job.chainOk st (exec cfg fetch pause fuel job st).1 := by
  intro fuel
  induction fuel with
  | zero => intro job st; exact execInv_refl _ _
  | succ fuel ih =>
    intro job st
    match job with
    | Job.go steam_id tally depth pwfc =>
      show ExecInv (tally.length = depth) st _
      have h1 := targetCheck_inv cfg pause steam_id tally depth pwfc st
        (tally.length = depth) (fun h => h)
      cases htc : targetCheck cfg pause steam_id tally depth pwfc st with
      | mk st1 e1 =>
        rw [htc] at h1
        cases e1 with
        | some e =>
          simp only [exec, htc]
          exact h1
        | none =>
          simp only [exec, htc]
          by_cases hcut : cfg.max_depth ≤ depth
          · rw [if_pos hcut]
            exact h1
          · rw [if_neg hcut]
            cases hc : cacheGet st1.friend_cache steam_id with
            | some raw =>
              exact execInv_trans h1
                (ih (Job.expand steam_id raw tally depth true) st1) (fun h => h)
            | none =>
              by_cases hmode : cfg.cached_only = CachedOnly.all ∨
                  cfg.cached_only = CachedOnly.friends_only
              · rw [if_pos hmode]
                exact h1
              · rw [if_neg hmode]
                have h2 : ExecInv (tally.length = depth) st (rateGate cfg steam_id st1) :=
                  execInv_trans h1
                    (execInv_rateGateStep _ cfg steam_id st1 hc) (fun h => h)
                cases hfetch : fetch steam_id with
                | fail => dsimp only; exact h2
                | raw r =>
                  dsimp only
                  cases hparse : parseResp r with
                  | error e => dsimp only; exact h2
                  | ok raw =>
                    dsimp only
                    refine execInv_trans h2 ?_ (fun h => h)
                    refine execInv_trans
                      (execInv_storeFriendsStep (tally.length = depth) _ steam_id raw)
                      (ih (Job.expand steam_id raw tally depth false) _) (fun h => h)
    | Job.expand steam_id raw tally depth fc =>
      show ExecInv (tally.length = depth) st _
      simp only [exec]
      refine execInv_weaken (ih (Job.chunks _ (tally ++ [steam_id]) (depth + 1) fc) st) ?_
      intro h
      show (tally ++ [steam_id]).length = depth + 1
      simp [h]
    | Job.chunk [] tally depth fc =>
      exact execInv_refl _ _
    | Job.chunk (id :: rest) tally depth fc =>
      show ExecInv (tally.length = depth) st _
      simp only [exec]
      have hgo := ih (Job.go id tally depth (some fc)) st
      cases hr1 : exec cfg fetch pause fuel (Job.go id tally depth (some fc)) st with
      | mk st1 e1 =>
        rw [hr1] at hgo
        have hrest := ih (Job.chunk rest tally depth fc) st1
        cases hr2 : exec cfg fetch pause fuel (Job.chunk rest tally depth fc) st1 with
        | mk st2 e2 =>
          rw [hr2] at hrest
          simp only [hr1, hr2]
          exact execInv_trans hgo hrest (fun h => h)
    | Job.chunks [] tally depth fc =>
      exact execInv_refl _ _
    | Job.chunks (c :: rest) tally depth fc =>
      show ExecInv (tally.length = depth) st _
      simp only [exec]
      have hstA : ExecInv (tally.length = depth) st
          { st with trace := st.trace ++ [Event.batchStart c.length] } := by
        refine execInv_extendTrace _ st _ ?_ ?_
        · intro k _hk hm
          simp only [List.mem_cons, List.not_mem_nil, or_false] at hm
          exact Event.noConfusion hm
        · intro _ i t d hm
          simp only [List.mem_cons, List.not_mem_nil, or_false] at hm
          exact Event.noConfusion hm
      have hch := ih (Job.chunk c tally depth fc)
        { st with trace := st.trace ++ [Event.batchStart c.length] }
      cases hr1 : exec cfg fetch pause fuel (Job.chunk c tally depth fc)
          { st with trace := st.trace ++ [Event.batchStart c.length] } with
      | mk st1 e1 =>
        rw [hr1] at hch
        have hstB : ExecInv (tally.length = depth) st1
            { st1 with trace := st1.trace ++ [Event.batchEnd] } := by
          refine execInv_extendTrace _ st1 _ ?_ ?_
          · intro k _hk hm
            simp only [List.mem_cons, List.not_mem_nil, or_false] at hm
            exact Event.noConfusion hm
          · intro _ i t d hm
            simp only [List.mem_cons, List.not_mem_nil, or_false] at hm
            exact Event.noConfusion hm
        have hpre : ExecInv (tally.length = depth) st
            { st1 with trace := st1.trace ++ [Event.batchEnd] } :=
          execInv_trans (execInv_trans hstA hch (fun h => h)) hstB (fun h => h)
        cases e1 with
        | some e => exact hpre
        | none =>
          have hrest := ih (Job.chunks rest tally depth fc)
            { st1 with trace := st1.trace ++ [Event.batchEnd] }
          exact execInv_trans hpre hrest (fun h => h)

/-- The trace segment contributed by one executed batch: its start marker
(carrying the batch width), the events of its calls, and its end marker
(the completion of the awaited asyncio.wait). -/
def batchBlock (c : List SteamId) (inner : List Event) : List Event :=
  Event.batchStart c.length :: (inner ++ [Event.batchEnd])

/-- Batches run strictly one after the other: the trace of the batch loop
is the concatenation of complete batch blocks, one per executed batch, for
a prefix of the planned batches (all of them unless a batch reported an
error and the run aborted). -/
theorem chunks_blocks (cfg : Config) (fetch : SteamId → NetResult) (pause : PauseResult) :
    ∀ (fuel : Nat) (cs : List (List SteamId)) (tally : List SteamId) (depth : Nat)
      (fc : Bool) (st : St),
      ∃ (k : Nat) (inners : List (List Event)),
        k ≤ cs.length ∧ inners.length = k ∧
        (exec cfg fetch pause fuel (Job.chunks cs tally depth fc) st).1.trace =
          st.trace ++ (List.zipWith batchBlock (cs.take k) inners).flatten := by
  intro fuel
  induction fuel with
  | zero =>
    intro cs tally depth fc st
    exact ⟨0, [], Nat.zero_le _, rfl, by simp [exec]⟩
  | succ fuel ih =>
    intro cs tally depth fc st
    match cs with
    | [] => exact ⟨0, [], Nat.zero_le _, rfl, by simp [exec]⟩
    | c :: rest =>
      obtain ⟨Δ, hΔ, -, -, -⟩ := exec_inv cfg fetch pause fuel (Job.chunk c tally depth fc)
        { st with trace := st.trace ++ [Event.batchStart c.length] }
      cases hr1 : exec cfg fetch pause fuel (Job.chunk c tally depth fc)
          { st with trace := st.trace ++ [Event.batchStart c.length] } with
      | mk st1 e1 =>
        rw [hr1] at hΔ
        cases e1 with
        | some e =>
          refine ⟨1, [Δ], by simp, rfl, ?_⟩
          simp only [exec, hr1]
          rw [hΔ]
          simp [batchBlock]
        | none =>
          obtain ⟨k, inners, hk, hlen, htr⟩ := ih rest tally depth fc
            { st1 with trace := st1.trace ++ [Event.batchEnd] }
          refine ⟨k + 1, Δ :: inners, by simpa using hk, by simp [hlen], ?_⟩
          simp only [exec, hr1]
          rw [htr]
          rw [show ({ st1 with trace := st1.trace ++ [Event.batchEnd] } : St).trace
              = st1.trace ++ [Event.batchEnd] from rfl, hΔ]
          simp [batchBlock]

theorem batchedGo_flatten {α : Type} (n : Nat) (hn : 0 < n) :
    ∀ (fuel : Nat) (l : List α), l.length ≤ fuel → (batchedGo n fuel l).flatten = l := by
  intro fuel
  induction fuel with
  | zero =>
    intro l hl
    cases l with
    | nil => rfl
    | cons x xs => simp at hl
  | succ fuel ih =>
    intro l hl
    cases l with
    | nil => rfl
    | cons x xs =>
      simp only [batchedGo, List.flatten_cons]
      rw [ih ((x :: xs).drop n) (by simp at hl ⊢; omega)]
      exact List.take_append_drop n (x :: xs)

theorem batchedGo_width {α : Type} (n : Nat) :
    ∀ (fuel : Nat) (l : List α) (c : List α), c ∈ batchedGo n fuel l → c.length ≤ n := by
  intro fuel
  induction fuel with
  | zero =>
    intro l c hc
    cases l <;> simp [batchedGo] at hc
  | succ fuel ih =>
    intro l c hc
    cases l with
    | nil => simp [batchedGo] at hc
    | cons x xs =>
      simp only [batchedGo, List.mem_cons] at hc
      rcases hc with hc | hc
      · rw [hc]; simp
      · exact ih _ c hc

theorem batchedGo_count {α : Type} (n : Nat) (hn : 0 < n) :
    ∀ (fuel : Nat) (l : List α), l.length ≤ fuel →
      (batchedGo n fuel l).length = (l.length + n - 1) / n := by
  intro fuel
  induction fuel with
  | zero =>
    intro l hl
    cases l with
    | nil =>
      simp only [batchedGo, List.length_nil]
      symm
      apply Nat.div_eq_of_lt
      omega
    | cons x xs => simp at hl
  | succ fuel ih =>
    intro l hl
    cases l with
    | nil =>
      simp only [batchedGo, List.length_nil]
      symm
      apply Nat.div_eq_of_lt
      omega
    | cons x xs =>
      simp only [batchedGo, List.length_cons]
      rw [ih ((x :: xs).drop n) (by simp at hl ⊢; omega), List.length_drop, List.length_cons]
      by_cases hmn : xs.length + 1 ≤ n
      · rw [Nat.sub_eq_zero_of_le hmn]
        have h1 : (n - 1) / n = 0 := Nat.div_eq_of_lt (by omega)
        have h2 : xs.length + 1 + n - 1 = xs.length + n := by omega
        have h3 : (xs.length + n) / n = xs.length / n + 1 := Nat.add_div_right _ hn
        have h4 : xs.length / n = 0 := Nat.div_eq_of_lt (by omega)
        simp only [Nat.zero_add, h1, h2, h3, h4]
      · have h1 : xs.length + 1 - n + n - 1 = (xs.length - n) + n := by omega
        have h2 : xs.length + 1 + n - 1 = (xs.length - n) + n + n := by omega
        rw [h1, h2, Nat.add_div_right _ hn, Nat.add_div_right _ hn, Nat.add_div_right _ hn]

theorem batched_flatten {α : Type} (l : List α) (n : Nat) (hn : 0 < n) :
    (batched l n).flatten = l := by
  unfold batched
  rw [if_neg (Nat.pos_iff_ne_zero.mp hn)]
  exact batchedGo_flatten n hn l.length l (Nat.le_refl _)

theorem batched_width {α : Type} (l : List α) (n : Nat) (c : List α)
    (hc : c ∈ batched l n) : c.length ≤ n := by
  unfold batched at hc
  by_cases h0 : n = 0
  · rw [if_pos h0] at hc; simp at hc
  · rw [if_neg h0] at hc
    exact batchedGo_width n l.length l c hc

theorem batched_count {α : Type} (l : List α) (n : Nat) (hn : 0 < n) :
    (batched l n).length = (l.length + n - 1) / n := by
  unfold batched
  rw [if_neg (Nat.pos_iff_ne_zero.mp hn)]
  exact batchedGo_count n hn l.length l (Nat.le_refl _)

theorem updateFinds_new (finds : List (SteamId × Find)) (steam_id : SteamId)
    (tally : List SteamId) (depth : Nat) (h : lookupFind finds steam_id = none) :
    lookupFind (updateFinds finds steam_id tally depth) steam_id =
      some (Find.mk steam_id [tally] depth none) := by
  simp only [updateFinds, h]
  exact lookupFind_setFind_self _ _ _

theorem updateFinds_replace (finds : List (SteamId × Find)) (steam_id : SteamId)
    (tally : List SteamId) (depth : Nat) (prior : Find)
    (h : lookupFind finds steam_id = some prior) (hd : depth < prior.depth) :
    lookupFind (updateFinds finds steam_id tally depth) steam_id =
      some (Find.mk steam_id [tally] depth (some prior)) := by
  simp only [updateFinds, h, if_pos hd]
  exact lookupFind_setFind_self _ _ _

theorem updateFinds_append (finds : List (SteamId × Find)) (steam_id : SteamId)
    (tally : List SteamId) (depth : Nat) (prior : Find)
    (h : lookupFind finds steam_id = some prior) (hd : prior.depth ≤ depth) :
    lookupFind (updateFinds finds steam_id tally depth) steam_id =
      some (Find.mk prior.valve_dev_steam_id (prior.steam_id_tallies ++ [tally])
        prior.depth prior.previous_depth_find) := by
  simp only [updateFinds, h, if_neg (Nat.not_lt.mpr hd)]
  exact lookupFind_setFind_self _ _ _

/-- The continuation of one unfolding of find after a target check that
completed: any state the rest of the invocation can produce is related to
the post-target-check state by the run invariant. -/
theorem exec_go_tail (cfg : Config) (fetch : SteamId → NetResult) (pause : PauseResult)
    (fuel : Nat) (steam_id : SteamId) (tally : List SteamId) (depth : Nat)
    (pwfc : Option Bool) (st st1 : St)
    (htc : targetCheck cfg pause steam_id tally depth pwfc st = (st1, none)) :
    ExecInv False st1
      (exec cfg fetch pause (fuel + 1) (Job.go steam_id tally depth pwfc) st).1 := by
  simp only [exec, htc]
  by_cases hcut : cfg.max_depth ≤ depth
  · rw [if_pos hcut]
    exact execInv_refl _ _
  · rw [if_neg hcut]
    cases hc : cacheGet st1.friend_cache steam_id with
    | some raw =>
      exact execInv_weaken
        (exec_inv cfg fetch pause fuel (Job.expand steam_id raw tally depth true) st1)
        (fun h => h.elim)
    | none =>
      by_cases hmode : cfg.cached_only = CachedOnly.all ∨
          cfg.cached_only = CachedOnly.friends_only
      · rw [if_pos hmode]
        exact execInv_refl _ _
      · rw [if_neg hmode]
        have h2 : ExecInv False st1 (rateGate cfg steam_id st1) :=
          execInv_rateGateStep _ cfg steam_id st1 hc
        cases hfetch : fetch steam_id with
        | fail => dsimp only; exact h2
        | raw r =>
          dsimp only
          cases hparse : parseResp r with
          | error e => dsimp only; exact h2
          | ok raw =>
            dsimp only
            refine execInv_trans h2 ?_ (fun h => h)
            refine execInv_trans (execInv_storeFriendsStep False _ steam_id raw) ?_ (fun h => h)
            exact execInv_weaken
              (exec_inv cfg fetch pause fuel (Job.expand steam_id raw tally depth false) _)
              (fun h => h.elim)

/-- A target check that raised ends the invocation at once: the wrapped
error is returned with the state exactly as the failing target-check block
left it — no cache consultation, no rate gate, no network request, no
expansion, and no registry write beyond what the block itself did. -/
theorem exec_go_raise (cfg : Config) (fetch : SteamId → NetResult) (pause : PauseResult)
    (fuel : Nat) (steam_id : SteamId) (tally : List SteamId) (depth : Nat)
    (pwfc : Option Bool) (st st1 : St) (e : FindError)
    (htc : targetCheck cfg pause steam_id tally depth pwfc st = (st1, some e)) :
    exec cfg fetch pause (fuel + 1) (Job.go steam_id tally depth pwfc) st = (st1, some e) := by
  simp only [exec, htc]

/-- Claim C1: for every invocation of the traversal on a target node, the Find
Registry update follows exactly three cases: no prior Find for the target
creates a new Find at the current depth whose chain list holds only the
current chain; a prior Find of strictly larger depth is replaced by a new
Find at the current depth holding only the current chain and a backward
link to the prior record; a prior Find of smaller-or-equal depth keeps its
depth and gets the current chain appended to its chain list. -/
theorem find_registry_update_cases (finds : List (SteamId × Find)) (steam_id : SteamId)
    (tally : List SteamId) (depth : Nat) :
    (lookupFind finds steam_id = none →
      lookupFind (updateFinds finds steam_id tally depth) steam_id =
        some (Find.mk steam_id [tally] depth none)) ∧
    (∀ prior, lookupFind finds steam_id = some prior → depth < prior.depth →
      lookupFind (updateFinds finds steam_id tally depth) steam_id =
        some (Find.mk steam_id [tally] depth (some prior))) ∧
    (∀ prior, lookupFind finds steam_id = some prior → prior.depth ≤ depth →
      lookupFind (updateFinds finds steam_id tally depth) steam_id =
        some (Find.mk prior.valve_dev_steam_id (prior.steam_id_tallies ++ [tally])
          prior.depth prior.previous_depth_find)) :=
  ⟨fun h => updateFinds_new finds steam_id tally depth h,
   fun prior h hd => updateFinds_replace finds steam_id tally depth prior h hd,
   fun prior h hd => updateFinds_append finds steam_id tally depth prior h hd⟩

/-- Witness for C1: the three cases evaluated at concrete registries. -/
theorem find_registry_update_cases_witness :
    lookupFind (updateFinds [] "gabe" ["a", "b"] 2) "gabe" =
      some (Find.mk "gabe" [["a", "b"]] 2 none) ∧
    lookupFind (updateFinds [("gabe", Find.mk "gabe" [["a", "b"]] 2 none)] "gabe" ["c"] 1)
        "gabe" =
      some (Find.mk "gabe" [["c"]] 1 (some (Find.mk "gabe" [["a", "b"]] 2 none))) ∧
    lookupFind (updateFinds [("gabe", Find.mk "gabe" [["a", "b"]] 2 none)] "gabe" ["x", "y"] 2)
        "gabe" =
      some (Find.mk "gabe" [["a", "b"], ["x", "y"]] 2 none) :=
  ⟨(find_registry_update_cases [] "gabe" ["a", "b"] 2).1 rfl,
   (find_registry_update_cases [("gabe", Find.mk "gabe" [["a", "b"]] 2 none)]
      "gabe" ["c"] 1).2.1 (Find.mk "gabe" [["a", "b"]] 2 none) rfl (by decide),
   (find_registry_update_cases [("gabe", Find.mk "gabe" [["a", "b"]] 2 none)]
      "gabe" ["x", "y"] 2).2.2 (Find.mk "gabe" [["a", "b"]] 2 none) rfl (by decide)⟩

/-- Claim C2 counterexample: with accumulated chain P, Q, R (length 3) at
current node X, the neighbor Q — whose id already appears in the chain —
is nevertheless kept by the code's filter, so the claim's cycle-guard
condition (the NEIGHBOR must not occur in the chain) is false of the code;
conversely, from current node Q (which occurs in the chain) even the
fresh neighbor Z is rejected, although the claim would admit it. -/
theorem neighbor_eligibility_counterexample :
    ((⟨"friend", "Q"⟩ : Friend) ∈
        filterFriends (some [⟨"friend", "Q"⟩]) "X" ["P", "Q", "R"] ∧
      3 ≤ (["P", "Q", "R"] : List SteamId).length ∧
      ("Q" : SteamId) ∈ (["P", "Q", "R"] : List SteamId) ∧
      ("Q" : SteamId) ≠ ("X" : SteamId)) ∧
    (filterFriends (some [⟨"friend", "Z"⟩]) "Q" ["P", "Q", "R"] = [] ∧
      ("Z" : SteamId) ∉ (["P", "Q", "R"] : List SteamId) ∧
      ("Z" : SteamId) ≠ ("Q" : SteamId)) := by
  decide

/-- Claim C2 as amended: a neighbor from the fetched friend list is eligible for
recursive expansion iff its relationship kind is "friend", its id differs
from the current node's id, and — cycle guard — when the accumulated chain
has length at least 3, the CURRENT NODE's id does not already appear in
the accumulated chain; the guard tests the node being expanded rather than
the candidate neighbor, and therefore suppresses the entire neighbor set
of such a node at once.  Chains of length 0, 1 or 2 are exempt. -/
theorem neighbor_eligibility (friend_list : FriendList) (steam_id : SteamId)
    (tally : List SteamId) (friend : Friend) :
    friend ∈ filterFriends (some friend_list) steam_id tally ↔
      (friend ∈ friend_list ∧ friend.relationship = "friend" ∧
        friend.steamid ≠ steam_id ∧ (tally.length < 3 ∨ steam_id ∉ tally)) := by
  simp [filterFriends, List.mem_filter, and_assoc]

/-- Claim C3: within one run, the best depth recorded for a target never
increases: any state the interpreter can reach maps the target to a record
of smaller-or-equal depth; and per update, a strictly smaller discovery
depth replaces the record (new best depth recorded), while a
greater-or-equal discovery appends a chain leaving the best depth
unchanged. -/
theorem depth_monotonic (cfg : Config) (fetch : SteamId → NetResult) (pause : PauseResult)
    (fuel : Nat) (job : Job) (st : St) (k : SteamId) (prior : Find)
    (h : lookupFind st.finds k = some prior) :
    (∃ f', lookupFind (exec cfg fetch pause fuel job st).1.finds k = some f' ∧
        f'.depth ≤ prior.depth) ∧
    (∀ tally depth, depth < prior.depth →
      (lookupFind (updateFinds st.finds k tally depth) k).map Find.depth = some depth) ∧
    (∀ tally depth, prior.depth ≤ depth →
      (lookupFind (updateFinds st.finds k tally depth) k).map Find.depth =
        some prior.depth) := by
  refine ⟨?_, ?_, ?_⟩
  · obtain ⟨-, -, -, -, hd⟩ := exec_inv cfg fetch pause fuel job st
    obtain ⟨f', hl, he⟩ := hd k prior h
    refine ⟨f', hl, ?_⟩
    rcases he with he | ⟨he, -⟩
    · exact Nat.le_of_lt he
    · exact Nat.le_of_eq he
  · intro tally depth hd
    rw [updateFinds_replace st.finds k tally depth prior h hd]
    simp
  · intro tally depth hd
    rw [updateFinds_append st.finds k tally depth prior h hd]
    simp

/-- A monotonicity-witness configuration whose target set is T. -/
def monoCfg : Config :=
  { max_depth := 2, simultaneous_requests := 2, request_delay := 1,
    targets := ["T"], cached_only := CachedOnly.all, gaben_steam_id := "gaben" }

/-- A monotonicity-witness state whose registry holds a depth-2 find. -/
def monoSt : St :=
  { finds := [("T", Find.mk "T" [["x", "y"]] 2 none)], friend_cache := [], trace := [] }

/-- Witness for C3: a registry holding a depth-2 find, run through a
concrete traversal step and through both update shapes. -/
theorem depth_monotonic_witness :
    (∃ f', lookupFind (exec monoCfg (fun _ => NetResult.raw (RawResp.good none))
          PauseResult.ok 3 (Job.go "T" ["a", "b"] 2 (some true)) monoSt).1.finds "T" =
        some f' ∧
      f'.depth ≤ (Find.mk "T" [["x", "y"]] 2 none).depth) ∧
    (∀ tally depth, depth < (Find.mk "T" [["x", "y"]] 2 none).depth →
      (lookupFind (updateFinds [("T", Find.mk "T" [["x", "y"]] 2 none)] "T" tally depth)
        "T").map Find.depth = some depth) ∧
    (∀ tally depth, (Find.mk "T" [["x", "y"]] 2 none).depth ≤ depth →
      (lookupFind (updateFinds [("T", Find.mk "T" [["x", "y"]] 2 none)] "T" tally depth)
        "T").map Find.depth = some 2) :=
  depth_monotonic monoCfg (fun _ => NetResult.raw (RawResp.good none)) PauseResult.ok 3
    (Job.go "T" ["a", "b"] 2 (some true)) monoSt "T" (Find.mk "T" [["x", "y"]] 2 none) rfl

/-- A configuration whose target set contains the gaben id G. -/
def gabenCfg : Config :=
  { max_depth := 3, simultaneous_requests := 2, request_delay := 1,
    targets := ["G"], cached_only := CachedOnly.none', gaben_steam_id := "G" }

/-- The gaben configuration at the minimal depth budget. -/
def gabenCfg0 : Config :=
  { max_depth := 0, simultaneous_requests := 2, request_delay := 1,
    targets := ["G"], cached_only := CachedOnly.none', gaben_steam_id := "G" }

/-- The empty starting state. -/
def emptySt : St :=
  { finds := [], friend_cache := [], trace := [] }

/-- Claim C4 counterexample: an invocation at depth 0 with max_depth 0 on
the gaben target, invoked as the root call (metadata without the
previous_was_from_cache key), raises the wrapped KeyError of source line
204 instead of updating the registry and returning: the result carries a
FindError for the node and the registry stays empty, so the depth cutoff
invocation neither performs the registry update nor returns normally. -/
theorem depth_cutoff_counterexample :
    exec gabenCfg0 (fun _ => NetResult.raw (RawResp.good none)) PauseResult.ok 5
        (Job.go "G" [] 0 none) emptySt =
      (emptySt, some { steam_id := "G", response := none }) ∧
    "G" ∈ gabenCfg0.targets ∧
    gabenCfg0.max_depth ≤ 0 ∧
    emptySt.finds = [] := by
  refine ⟨rfl, by decide, by decide, rfl⟩

/-- Claim C4 (amended): for every invocation of the traversal with depth
greater than or equal to the configured maximum depth, the call runs the
target-check block and, when that block completes — always for a node
other than the gaben id, and for gaben exactly when the invoking metadata
carries the from-cache flag and, if the flag is false, the interactive
prompt succeeds — performs the registry update for a target node and then
returns with no error, never consulting the friend-list cache, issuing a
network request, or expanding a neighbor; the depth cutoff itself never
suppresses a registry update.  When the gaben special case raises (the
root call's missing flag, or a failing prompt), the invocation instead
returns that wrapped error immediately, with the same absence of cache,
network, and expansion activity and without the registry update. -/
theorem depth_cutoff (cfg : Config) (fetch : SteamId → NetResult) (pause : PauseResult)
    (fuel : Nat) (steam_id : SteamId) (tally : List SteamId) (depth : Nat)
    (pwfc : Option Bool) (st : St) (h : cfg.max_depth ≤ depth) :
    (∀ st1, targetCheck cfg pause steam_id tally depth pwfc st = (st1, none) →
      exec cfg fetch pause (fuel + 1) (Job.go steam_id tally depth pwfc) st = (st1, none)) ∧
    (∀ st1 e, targetCheck cfg pause steam_id tally depth pwfc st = (st1, some e) →
      exec cfg fetch pause (fuel + 1) (Job.go steam_id tally depth pwfc) st = (st1, some e)) ∧
    (steam_id ≠ cfg.gaben_steam_id →
      exec cfg fetch pause (fuel + 1) (Job.go steam_id tally depth pwfc) st =
        (if steam_id ∈ cfg.targets then recordFind steam_id tally depth st else st,
         none)) := by
  refine ⟨?_, ?_, ?_⟩
  · intro st1 htc
    simp only [exec, htc, if_pos h]
  · intro st1 e htc
    simp only [exec, htc]
  · intro hne
    simp only [exec, targetCheck_not_gaben cfg pause steam_id tally depth pwfc st hne,
      if_pos h]

/-- Witness for C4 (amended): a depth-6 invocation of an ordinary target
node under max_depth 6 records the find and stops; the gaben root at the
cutoff raises instead. -/
theorem depth_cutoff_witness :
    (exec monoCfg (fun _ => NetResult.fail) PauseResult.ok 9
        (Job.go "T" ["a", "b"] 6 (some true)) emptySt =
      (if "T" ∈ monoCfg.targets then recordFind "T" ["a", "b"] 6 emptySt else emptySt,
       none)) ∧
    (exec gabenCfg0 (fun _ => NetResult.fail) PauseResult.ok 9 (Job.go "G" [] 0 none)
        emptySt =
      (emptySt, some { steam_id := "G", response := none })) :=
  ⟨(depth_cutoff monoCfg (fun _ => NetResult.fail) PauseResult.ok 8 "T" ["a", "b"] 6
      (some true) emptySt (by decide)).2.2 (by decide),
   (depth_cutoff gabenCfg0 (fun _ => NetResult.fail) PauseResult.ok 8 "G" [] 0 none
      emptySt (by decide)).2.1 emptySt { steam_id := "G", response := none }
      (targetCheck_gaben_root gabenCfg0 PauseResult.ok "G" [] 0 emptySt
        (by decide) (by decide))⟩

/-- Claim C5: once a friend-list response — including the null no-data marker —
is stored in the cache for an id, no later step of the run emits a network
request for that id's friend list, the cached value read back at any later
state is exactly the stored one, and storing a value for a previously
uncached id makes exactly that value readable. -/
theorem cache_idempotence (cfg : Config) (fetch : SteamId → NetResult) (pause : PauseResult)
    (fuel : Nat) (job : Job) (st : St) (steam_id : SteamId) (v : Option FriendList)
    (h : cacheGet st.friend_cache steam_id = some v) :
    (∃ Δ, (exec cfg fetch pause fuel job st).1.trace = st.trace ++ Δ ∧
        Event.netFriends steam_id ∉ Δ) ∧
    cacheGet (exec cfg fetch pause fuel job st).1.friend_cache steam_id = some v ∧
    (∀ cache w, cacheGet cache steam_id = none →
      cacheGet (cachePut cache steam_id w) steam_id = some w) := by
  have hne : cacheGet st.friend_cache steam_id ≠ none := by
    rw [h]; exact fun hh => Option.noConfusion hh
  obtain ⟨Δ, ht, hc, -, -⟩ := exec_inv cfg fetch pause fuel job st
  obtain ⟨hn, he⟩ := hc steam_id hne
  exact ⟨⟨Δ, ht, hn⟩, by rw [he, h],
    fun cache w hw => cacheGet_cachePut_self cache steam_id w hw⟩

/-- A small configuration used by concrete witness runs. -/
def witnessCfg : Config :=
  { max_depth := 3, simultaneous_requests := 2, request_delay := 1,
    targets := [], cached_only := CachedOnly.none', gaben_steam_id := "gaben" }

/-- A state whose friend cache holds the explicit null marker for X. -/
def witnessStX : St :=
  { finds := [], friend_cache := [("X", none)], trace := [] }

/-- Witness for C5: a node cached with the explicit null marker is
traversed again without any network request for it. -/
theorem cache_idempotence_witness :
    (∃ Δ, (exec witnessCfg (fun _ => NetResult.fail) PauseResult.ok 5
          (Job.go "X" [] 0 none) witnessStX).1.trace = witnessStX.trace ++ Δ ∧
        Event.netFriends "X" ∉ Δ) ∧
    cacheGet (exec witnessCfg (fun _ => NetResult.fail) PauseResult.ok 5
        (Job.go "X" [] 0 none) witnessStX).1.friend_cache "X" = some none ∧
    (∀ cache w, cacheGet cache "X" = none →
      cacheGet (cachePut cache "X" w) "X" = some w) :=
  cache_idempotence witnessCfg (fun _ => NetResult.fail) PauseResult.ok 5
    (Job.go "X" [] 0 none) witnessStX "X" none rfl

/-- Claim C6: with concurrency degree N > 0 and M eligible child calls, the
calls are partitioned into ceil(M/N) batches of width at most N whose
concatenation is the original call list; and the batch loop's trace is a
concatenation of complete batch blocks — each executed batch contributes
its start marker (carrying its width), then every event of its calls, then
its end marker — so batch K+1 never begins before all of batch K has
settled, and the calls in flight at any moment belong to a single batch of
width at most N. -/
theorem batch_partition (cfg : Config) (fetch : SteamId → NetResult) (pause : PauseResult)
    (ids : List SteamId) (n : Nat) (hn : 0 < n) (fuel : Nat)
    (cs : List (List SteamId)) (tally : List SteamId) (depth : Nat) (fc : Bool) (st : St) :
    ((batched ids n).length = (ids.length + n - 1) / n ∧
      (∀ c ∈ batched ids n, c.length ≤ n) ∧
      (batched ids n).flatten = ids) ∧
    (∃ k inners, k ≤ cs.length ∧ inners.length = k ∧
      (exec cfg fetch pause fuel (Job.chunks cs tally depth fc) st).1.trace =
        st.trace ++ (List.zipWith batchBlock (cs.take k) inners).flatten) :=
  ⟨⟨batched_count ids n hn, fun c hc => batched_width ids n c hc, batched_flatten ids n hn⟩,
   chunks_blocks cfg fetch pause fuel cs tally depth fc st⟩

/-- An empty starting state used by concrete witness runs. -/
def witnessSt0 : St :=
  { finds := [], friend_cache := [], trace := [] }

/-- A witness configuration running in cached-only mode friends_only. -/
def witnessCfgF : Config :=
  { max_depth := 3, simultaneous_requests := 2, request_delay := 1,
    targets := [], cached_only := CachedOnly.friends_only, gaben_steam_id := "gaben" }

/-- A witness configuration running in cached-only mode profiles_only. -/
def witnessCfgP : Config :=
  { max_depth := 3, simultaneous_requests := 2, request_delay := 1,
    targets := [], cached_only := CachedOnly.profiles_only, gaben_steam_id := "gaben" }

/-- A witness configuration whose target set contains the initial node. -/
def witnessCfgT : Config :=
  { max_depth := 2, simultaneous_requests := 2, request_delay := 1,
    targets := ["A"], cached_only := CachedOnly.none', gaben_steam_id := "gaben" }

/-- Witness for C6: five calls at degree 2 form three batches of widths
2, 2, 1, and a concrete batch loop produces block-structured events. -/
theorem batch_partition_witness :
    (((batched ["a", "b", "c", "d", "e"] 2).length =
        ((["a", "b", "c", "d", "e"] : List SteamId).length + 2 - 1) / 2 ∧
      (∀ c ∈ batched ["a", "b", "c", "d", "e"] 2, c.length ≤ 2) ∧
      (batched ["a", "b", "c", "d", "e"] 2).flatten = ["a", "b", "c", "d", "e"]) ∧
    (∃ k inners, k ≤ ([["a", "b"], ["c"]] : List (List SteamId)).length ∧
      inners.length = k ∧
      (exec witnessCfg (fun _ => NetResult.fail) PauseResult.ok 4
          (Job.chunks [["a", "b"], ["c"]] [] 1 false) witnessSt0).1.trace =
        witnessSt0.trace ++
          (List.zipWith batchBlock ([["a", "b"], ["c"]].take k) inners).flatten)) :=
  batch_partition witnessCfg (fun _ => NetResult.fail) PauseResult.ok
    ["a", "b", "c", "d", "e"] 2 (by decide) 4 [["a", "b"], ["c"]] [] 1 false witnessSt0

/-- The friend graph of the spec's end-to-end scenario: A's friends are B
and C, B's only friend is D, C's only friend is D, and every other node
(in particular D) has no friendslist in its response. -/
def exampleFetch : SteamId → NetResult := fun steam_id =>
  if steam_id = "A" then NetResult.raw (RawResp.good (some [⟨"friend", "B"⟩, ⟨"friend", "C"⟩]))
  else if steam_id = "B" then NetResult.raw (RawResp.good (some [⟨"friend", "D"⟩]))
  else if steam_id = "C" then NetResult.raw (RawResp.good (some [⟨"friend", "D"⟩]))
  else NetResult.raw (RawResp.good none)

/-- Claim C7: the end-to-end scenario — initial node A, target set containing
only D, max depth 3, friend graph A to B and C, B to D, C to D — produces
exactly one Find, keyed by D, with best depth 2 and exactly the two chains
A,B and A,C (in the deterministic batch order of the model: A,B first),
and the run finishes without error. -/
theorem end_to_end_run :
    (runFind { max_depth := 3, simultaneous_requests := 2, request_delay := 1,
               targets := ["D"], cached_only := CachedOnly.none',
               gaben_steam_id := "G" }
        exampleFetch PauseResult.ok 30 "A" []).1.finds =
      [("D", Find.mk "D" [["A", "B"], ["A", "C"]] 2 none)] ∧
    (runFind { max_depth := 3, simultaneous_requests := 2, request_delay := 1,
               targets := ["D"], cached_only := CachedOnly.none',
               gaben_steam_id := "G" }
        exampleFetch PauseResult.ok 30 "A" []).2 = none := by
  constructor
  · rfl
  · rfl

/-- Claim C8 counterexample: a cache-miss traversal of the gaben target as
the root invocation, in cached-only mode none, crashes in the target-check
block before the cached_only logic runs: the result carries the wrapped
KeyError and the final state shows no rate-gate sleep, no network request,
and no cache write — contradicting the claim that such a call waits the
configured delay, requests the friend list, and persists the result. -/
theorem cached_only_modes_counterexample :
    exec gabenCfg (fun _ => NetResult.raw (RawResp.good none)) PauseResult.ok 5
        (Job.go "G" [] 0 none) emptySt =
      (emptySt, some { steam_id := "G", response := none }) ∧
    cacheGet emptySt.friend_cache "G" = none ∧
    gabenCfg.cached_only = CachedOnly.none' ∧
    (0 : Nat) < gabenCfg.max_depth ∧
    emptySt.trace = [] ∧
    emptySt.friend_cache = [] := by
  refine ⟨rfl, rfl, rfl, by decide, rfl, rfl⟩

/-- Claim C8 (amended): for a traversal whose target-check block completes
(always so away from the gaben special case), a friend-list cache miss in
cached-only mode all or friends_only makes the invocation return right
after the target check — no sleep, no network request, no cache write, no
neighbor expansion; otherwise a miss waits the rate-gate delay, issues the
request, and persists the parsed (possibly null) result to the cache
before the neighbor filter runs, the stored value being immediately
readable.  When the gaben special case raises instead, the invocation
returns that wrapped error at once, before the cached_only logic, the
cache consult, and any network activity.  In cached-only mode all or
profiles_only the profile resolver emits no events (in particular no
profile network request) for uncached ids. -/
theorem cached_only_modes (cfg : Config) (fetch : SteamId → NetResult) (pause : PauseResult)
    (fuel : Nat) (steam_id : SteamId) (tally : List SteamId) (depth : Nat)
    (pwfc : Option Bool) (st : St) :
    (∀ st1, targetCheck cfg pause steam_id tally depth pwfc st = (st1, none) →
      cacheGet st1.friend_cache steam_id = none → depth < cfg.max_depth →
      (cfg.cached_only = CachedOnly.all ∨ cfg.cached_only = CachedOnly.friends_only) →
      exec cfg fetch pause (fuel + 1) (Job.go steam_id tally depth pwfc) st =
        (st1, none)) ∧
    (∀ st1 r fl, targetCheck cfg pause steam_id tally depth pwfc st = (st1, none) →
      cacheGet st1.friend_cache steam_id = none → depth < cfg.max_depth →
      ¬(cfg.cached_only = CachedOnly.all ∨ cfg.cached_only = CachedOnly.friends_only) →
      fetch steam_id = NetResult.raw r → parseResp r = Except.ok fl →
      exec cfg fetch pause (fuel + 1) (Job.go steam_id tally depth pwfc) st =
        exec cfg fetch pause fuel (Job.expand steam_id fl tally depth false)
          (storeFriends steam_id fl (rateGate cfg steam_id st1)) ∧
      cacheGet (storeFriends steam_id fl (rateGate cfg steam_id st1)).friend_cache
        steam_id = some fl) ∧
    (∀ st1 e, targetCheck cfg pause steam_id tally depth pwfc st = (st1, some e) →
      exec cfg fetch pause (fuel + 1) (Job.go steam_id tally depth pwfc) st =
        (st1, some e)) ∧
    (∀ (profNet : List SteamId → List SteamProfile)
        (profile_cache : List (SteamId × SteamProfile)) (ids : List SteamId),
      (cfg.cached_only = CachedOnly.all ∨ cfg.cached_only = CachedOnly.profiles_only) →
      (resolveProfiles cfg profNet profile_cache ids).2.2 = []) := by
  refine ⟨?_, ?_, ?_, ?_⟩
  · intro st1 htc hmiss hdepth hmode
    simp only [exec, htc, if_neg (Nat.not_le.mpr hdepth), hmiss, if_pos hmode]
  · intro st1 r fl htc hmiss hdepth hmode hfetch hparse
    constructor
    · simp only [exec, htc, if_neg (Nat.not_le.mpr hdepth), hmiss, if_neg hmode,
        hfetch, hparse]
    · exact cacheGet_cachePut_self _ steam_id fl hmiss
  · intro st1 e htc
    simp only [exec, htc]
  · intro profNet profile_cache ids hmode
    simp only [resolveProfiles, if_pos hmode]

/-- Witness for C8 (amended): a run in friends_only mode stops at the
miss; a run in mode none persists and reads back the stored list; the
gaben root run returns the wrapped error untouched; and the resolver in
profiles_only mode emits nothing. -/
theorem cached_only_modes_witness :
    (exec witnessCfgF (fun _ => NetResult.fail) PauseResult.ok 4 (Job.go "X" [] 0 none)
        emptySt = (emptySt, none)) ∧
    (cacheGet (storeFriends "X" (some [⟨"friend", "Y"⟩])
        (rateGate witnessCfg "X" emptySt)).friend_cache "X" =
      some (some [⟨"friend", "Y"⟩])) ∧
    (exec gabenCfg (fun _ => NetResult.fail) PauseResult.ok 4 (Job.go "G" [] 0 none)
        emptySt = (emptySt, some { steam_id := "G", response := none })) ∧
    ((resolveProfiles witnessCfgP (fun _ => []) [] ["X", "Y"]).2.2 = []) :=
  ⟨(cached_only_modes witnessCfgF (fun _ => NetResult.fail) PauseResult.ok 3 "X" [] 0
      none emptySt).1 emptySt rfl rfl (by decide) (by decide),
   ((cached_only_modes witnessCfg
      (fun _ => NetResult.raw (RawResp.good (some [⟨"friend", "Y"⟩]))) PauseResult.ok 3
      "X" [] 0 none emptySt).2.1 emptySt (RawResp.good (some [⟨"friend", "Y"⟩]))
      (some [⟨"friend", "Y"⟩]) rfl rfl (by decide) (by decide) rfl rfl).2,
   (cached_only_modes gabenCfg (fun _ => NetResult.fail) PauseResult.ok 3 "G" [] 0 none
      emptySt).2.2.1 emptySt { steam_id := "G", response := none } rfl,
   (cached_only_modes witnessCfgP (fun _ => NetResult.fail) PauseResult.ok 3 "X" [] 0
      none emptySt).2.2.2 (fun _ => []) [] ["X", "Y"] (by decide)⟩

/-- Claim C9: a failing acquisition is wrapped into a FindError carrying the
offending node id and the raw response — None when the GET itself raised,
the response body when parsing failed — and returned without any retry
(the trace gains exactly one sleep and one network event); everything
written before the failure is kept: the returned state still holds the
target-check registry update and the unchanged cache.  A child error
reported inside a batch aborts the whole run after that batch settles:
the result is the first error, unchanged (process-exit signals are
propagated as-is, not re-wrapped), and the remaining batches are never
executed — the outcome does not depend on them. -/
theorem error_propagation (cfg : Config) (fetch : SteamId → NetResult) (pause : PauseResult)
    (fuel : Nat) (steam_id : SteamId) (tally : List SteamId) (depth : Nat)
    (pwfc : Option Bool) (st : St) :
    (∀ st1, targetCheck cfg pause steam_id tally depth pwfc st = (st1, none) →
      cacheGet st1.friend_cache steam_id = none → depth < cfg.max_depth →
      ¬(cfg.cached_only = CachedOnly.all ∨ cfg.cached_only = CachedOnly.friends_only) →
      fetch steam_id = NetResult.fail →
      exec cfg fetch pause (fuel + 1) (Job.go steam_id tally depth pwfc) st =
        (rateGate cfg steam_id st1,
         some { steam_id := steam_id, response := none })) ∧
    (∀ st1 r, targetCheck cfg pause steam_id tally depth pwfc st = (st1, none) →
      cacheGet st1.friend_cache steam_id = none → depth < cfg.max_depth →
      ¬(cfg.cached_only = CachedOnly.all ∨ cfg.cached_only = CachedOnly.friends_only) →
      fetch steam_id = NetResult.raw r → parseResp r = Except.error () →
      exec cfg fetch pause (fuel + 1) (Job.go steam_id tally depth pwfc) st =
        (rateGate cfg steam_id st1,
         some { steam_id := steam_id, response := some (RespMarker.netResponse r) })) ∧
    (∀ c cs tally' depth' fc st' st1 e,
      exec cfg fetch pause fuel (Job.chunk c tally' depth' fc)
          { st' with trace := st'.trace ++ [Event.batchStart c.length] } = (st1, some e) →
      exec cfg fetch pause (fuel + 1) (Job.chunks (c :: cs) tally' depth' fc) st' =
        ({ st1 with trace := st1.trace ++ [Event.batchEnd] }, some e)) := by
  refine ⟨?_, ?_, ?_⟩
  · intro st1 htc hmiss hdepth hmode hfetch
    simp only [exec, htc, if_neg (Nat.not_le.mpr hdepth), hmiss, if_neg hmode, hfetch]
  · intro st1 r htc hmiss hdepth hmode hfetch hparse
    simp only [exec, htc, if_neg (Nat.not_le.mpr hdepth), hmiss, if_neg hmode,
      hfetch, hparse]
  · intro c cs tally' depth' fc st' st1 e hchunk
    simp only [exec, hchunk]

/-- Witness for C9: a GET failure at X is wrapped as FindError X None; a
malformed body at X is wrapped with the body attached; a failing batch
aborts a two-batch loop with that same error. -/
theorem error_propagation_witness :
    (exec witnessCfg (fun _ => NetResult.fail) PauseResult.ok 4 (Job.go "X" [] 0 none)
        emptySt =
      (rateGate witnessCfg "X" emptySt,
       some { steam_id := "X", response := none })) ∧
    (exec witnessCfg (fun _ => NetResult.raw RawResp.bad) PauseResult.ok 4
        (Job.go "X" [] 0 none) emptySt =
      (rateGate witnessCfg "X" emptySt,
       some { steam_id := "X", response := some (RespMarker.netResponse RawResp.bad) })) ∧
    (exec witnessCfg (fun _ => NetResult.fail) PauseResult.ok 4
        (Job.chunks [["X"], ["Y"]] [] 1 false) emptySt =
      ({ (exec witnessCfg (fun _ => NetResult.fail) PauseResult.ok 3
            (Job.chunk ["X"] [] 1 false)
            { emptySt with
              trace := emptySt.trace ++ [Event.batchStart 1] }).1 with
          trace := (exec witnessCfg (fun _ => NetResult.fail) PauseResult.ok 3
            (Job.chunk ["X"] [] 1 false)
            { emptySt with
              trace := emptySt.trace ++ [Event.batchStart 1] }).1.trace ++
            [Event.batchEnd] },
       some { steam_id := "X", response := none })) :=
  ⟨(error_propagation witnessCfg (fun _ => NetResult.fail) PauseResult.ok 3 "X" [] 0 none
      emptySt).1 emptySt rfl rfl (by decide) (by decide) rfl,
   (error_propagation witnessCfg (fun _ => NetResult.raw RawResp.bad) PauseResult.ok 3
      "X" [] 0 none emptySt).2.1 emptySt RawResp.bad rfl rfl (by decide) (by decide)
      rfl rfl,
   (error_propagation witnessCfg (fun _ => NetResult.fail) PauseResult.ok 3 "X" [] 0 none
      emptySt).2.2 ["X"] [["Y"]] [] 1 false emptySt _
      { steam_id := "X", response := none } (by rfl)⟩

/-- Claim C10 counterexample: a run whose initial node is the gaben
target records nothing: the root call's metadata lacks the
previous_was_from_cache key, so line 204 raises before finds[steam_id] is
written and the run ends with the wrapped error, the registry empty —
contrary to the claim that a target initial node is recorded at depth 0
with a single empty chain. -/
theorem chain_length_equals_depth_counterexample :
    "G" ∈ gabenCfg.targets ∧
    runFind gabenCfg (fun _ => NetResult.raw (RawResp.good none)) PauseResult.ok 6
        "G" [] =
      ({ finds := [], friend_cache := [], trace := [] },
       some { steam_id := "G", response := none }) ∧
    lookupFind (runFind gabenCfg (fun _ => NetResult.raw (RawResp.good none))
        PauseResult.ok 6 "G" []).1.finds "G" = none := by
  refine ⟨by decide, rfl, rfl⟩

/-- Claim C10 (amended): the traversal starts with the empty chain at
depth 0 and each recursive call extends the chain by one node while
incrementing the depth by one, so every discovery logged during a run
records a chain whose length equals its discovery depth; an initial node
that is a target other than the gaben id is recorded first, at depth 0
with the single empty chain, and its registry record still has depth 0 and
first chain [] in every later state of the run; an initial node equal to
the gaben id instead raises the wrapped KeyError of line 204 before any
record is written, ending the run with the registry empty. -/
theorem chain_length_equals_depth (cfg : Config) (fetch : SteamId → NetResult)
    (pause : PauseResult) (fuel : Nat) (initial_steam_id : SteamId)
    (cache0 : List (SteamId × Option FriendList)) :
    (∀ i t d, Event.found i t d ∈
        (runFind cfg fetch pause fuel initial_steam_id cache0).1.trace →
      t.length = d) ∧
    (initial_steam_id ∈ cfg.targets → initial_steam_id ≠ cfg.gaben_steam_id →
      (∃ rest, (runFind cfg fetch pause (fuel + 1) initial_steam_id cache0).1.trace =
          Event.found initial_steam_id [] 0 :: rest) ∧
      (∃ f, lookupFind
            (runFind cfg fetch pause (fuel + 1) initial_steam_id cache0).1.finds
            initial_steam_id = some f ∧
        f.depth = 0 ∧ f.steam_id_tallies.head? = some [])) ∧
    (initial_steam_id ∈ cfg.targets → initial_steam_id = cfg.gaben_steam_id →
      runFind cfg fetch pause (fuel + 1) initial_steam_id cache0 =
        ({ finds := [], friend_cache := cache0, trace := [] },
         some { steam_id := initial_steam_id, response := none })) := by
  refine ⟨?_, ?_, ?_⟩
  · intro i t d hm
    obtain ⟨Δ, ht, -, hfd, -⟩ := exec_inv cfg fetch pause fuel
      (Job.go initial_steam_id [] 0 none)
      { finds := [], friend_cache := cache0, trace := [] }
    unfold runFind at hm
    rw [ht] at hm
    simp only [List.nil_append] at hm
    exact hfd rfl i t d hm
  · intro hmem hne
    have htc := targetCheck_not_gaben cfg pause initial_steam_id [] 0 none
      { finds := [], friend_cache := cache0, trace := [] } hne
    rw [if_pos hmem] at htc
    obtain ⟨Δ, ht, -, -, hd⟩ := exec_go_tail cfg fetch pause fuel initial_steam_id [] 0
      none { finds := [], friend_cache := cache0, trace := [] } _ htc
    have htc_trace : (recordFind initial_steam_id [] 0
        { finds := [], friend_cache := cache0, trace := ([] : List Event) }).trace =
        [Event.found initial_steam_id [] 0] := rfl
    have htc_finds : lookupFind (recordFind initial_steam_id [] 0
        { finds := [], friend_cache := cache0, trace := ([] : List Event) }).finds
        initial_steam_id = some (Find.mk initial_steam_id [[]] 0 none) :=
      updateFinds_new [] initial_steam_id [] 0 rfl
    constructor
    · refine ⟨Δ, ?_⟩
      unfold runFind
      rw [ht, htc_trace]
      rfl
    · obtain ⟨f', hl', he'⟩ := hd initial_steam_id _ htc_finds
      refine ⟨f', ?_, ?_, ?_⟩
      · unfold runFind
        exact hl'
      · rcases he' with he | ⟨he, -⟩
        · simp at he
        · simpa using he
      · rcases he' with he | ⟨-, -, -, r, htal⟩
        · simp at he
        · rw [htal]
          rfl
  · intro hmem hg
    unfold runFind
    exact exec_go_raise cfg fetch pause fuel initial_steam_id [] 0 none _ _ _
      (targetCheck_gaben_root cfg pause initial_steam_id [] 0 _ hmem hg)

/-- Witness for C10 (amended): a run whose initial node is a non-gaben
target, and the gaben root run ending in the wrapped error. -/
theorem chain_length_equals_depth_witness :
    ([] : List SteamId).length = 0 ∧
    (∃ rest, (runFind witnessCfgT
        (fun _ => NetResult.raw (RawResp.good none)) PauseResult.ok 4 "A" []).1.trace =
        Event.found "A" [] 0 :: rest) ∧
    (∃ f, lookupFind (runFind witnessCfgT
          (fun _ => NetResult.raw (RawResp.good none)) PauseResult.ok 4
          "A" []).1.finds "A" = some f ∧
      f.depth = 0 ∧ f.steam_id_tallies.head? = some []) ∧
    (runFind gabenCfg (fun _ => NetResult.raw (RawResp.good none)) PauseResult.ok 4
        "G" [] =
      ({ finds := [], friend_cache := [], trace := [] },
       some { steam_id := "G", response := none })) :=
  ⟨(chain_length_equals_depth witnessCfgT
      (fun _ => NetResult.raw (RawResp.good none)) PauseResult.ok 4 "A" []).1
      "A" [] 0 (by decide),
   ((chain_length_equals_depth witnessCfgT
      (fun _ => NetResult.raw (RawResp.good none)) PauseResult.ok 3 "A" []).2.1
      (by decide) (by decide)).1,
   ((chain_length_equals_depth witnessCfgT
      (fun _ => NetResult.raw (RawResp.good none)) PauseResult.ok 3 "A" []).2.1
      (by decide) (by decide)).2,
   (chain_length_equals_depth gabenCfg
      (fun _ => NetResult.raw (RawResp.good none)) PauseResult.ok 3 "G" []).2.2
      (by decide) rfl⟩

end Gaben
